import Mathlib

/-!
Verification of the process-control contract of the out-of-process debugger
core (`debug::IDebuggeeProcess`, src/branches/cod/src/debugger/core/
debuggee_iprocess.h).  The repository slice contains only the abstract
interface declaration; the concrete implementation (`DebuggeeProcess`) is
absent, so each operation below is a shallow embedding modelled from the
specification of the process-control contract: its state machine (§4.1),
breakpoint lifecycle (§4.2), event dispatch (§4.3) and memory access (§4.4).

Machine addresses and bytes are modelled as `Nat`; debuggee memory is a
partial map `Nat → Option Nat` where `none` marks an unmapped or protected
byte.  Every state-mutating operation returns the pair of its boolean result
and the successor process record, mirroring the C++ convention of a `bool`
return plus mutation of `this`.
-/

namespace Debug

/-- The three run states of a debuggee process, from the `State` enum of
`IDebuggeeProcess`: `kRunning` (alive, event loop running), `kHalted`
(alive, suspended pending a debugger decision), `kDead` (deleted by OS). -/
inductive State where
  | kRunning
  | kHalted
  | kDead
deriving DecidableEq, Repr

/-- Modelled from the spec: `DebugEvent` is a tagged variant over exception
(with code and faulting address), thread-created, thread-exited,
process-exited, output-string (byte span in debuggee memory) and
module-loaded, each carrying the id of the thread that received it (a
process-exit event is not tied to a surviving thread). -/
inductive DebugEvent where
  | exceptionEvent (threadId : Nat) (exceptionCode : Nat) (faultAddr : Nat)
  | threadCreated (threadId : Nat)
  | threadExited (threadId : Nat)
  | processExited
  | outputString (threadId : Nat) (addr : Nat) (size : Nat)
  | moduleLoaded (threadId : Nat)
deriving DecidableEq, Repr

/-- Modelled from the spec: a `Breakpoint` is a value object describing one
patched instruction location: its address and the original instruction
byte saved before patching. -/
structure Breakpoint where
  address : Nat
  original_code_byte : Nat
deriving DecidableEq, Repr

/-- Debuggee memory: a partial byte map. `none` = unmapped or protected. -/
abbrev Mem := Nat → Option Nat

/-- Modelled from the spec: the `DebuggeeProcess` data model (§3). It owns
the thread table (threads are modelled by their ids) and the address-keyed
breakpoint table, and maintains the run state, the compatibility-mode flag,
the last dispatched debug event, the halted thread (the one that received
the current stopping event, if any) and the nexe image base / entry point. -/
structure DebuggeeProcess where
  id : Nat
  state : State
  compatibility_mode : Bool
  nexe_mem_base : Nat
  nexe_entry_point : Nat
  memory : Mem
  breakpoints : List Breakpoint
  halted_thread : Option Nat
  threads : List Nat
  last_debug_event : Option DebugEvent

/-- The x86 trap opcode (int3, 0xCC) written over the original byte. -/
def trapInstruction : Nat := 0xCC

/-- `IsHalted`: modelled from the spec, true exactly in the `kHalted` run
state. -/
def IsHalted (p : DebuggeeProcess) : Bool :=
  match p.state with
  | State.kHalted => true
  | _ => false

/-- `EnableCompatibilityMode`: modelled from the spec, the only mutator of
the compatibility flag; no operation disables it. -/
def EnableCompatibilityMode (p : DebuggeeProcess) : DebuggeeProcess :=
  { p with compatibility_mode := true }

/-- `set_nexe_mem_base` setter, from the interface. -/
def set_nexe_mem_base (p : DebuggeeProcess) (a : Nat) : DebuggeeProcess :=
  { p with nexe_mem_base := a }

/-- `set_nexe_entry_point` setter, from the interface. -/
def set_nexe_entry_point (p : DebuggeeProcess) (a : Nat) : DebuggeeProcess :=
  { p with nexe_entry_point := a }

/-- `Continue`: modelled from the spec (§4.1): valid only while halted
(otherwise a reported failure leaving the process untouched); on success
the process resumes (Halted → Running) and no thread is the halted thread
any more. -/
def Continue (p : DebuggeeProcess) : Bool × DebuggeeProcess :=
  if p.state = State.kHalted then
    (true, { p with state := State.kRunning, halted_thread := none })
  else (false, p)

/-- `ContinueAndPassExceptionToDebuggee`: modelled from the spec: same
state-machine effect as `Continue` (the exception disposition is a
`DebugAPI`-boundary concern). -/
def ContinueAndPassExceptionToDebuggee (p : DebuggeeProcess) :
    Bool × DebuggeeProcess :=
  if p.state = State.kHalted then
    (true, { p with state := State.kRunning, halted_thread := none })
  else (false, p)

/-- `SingleStep`: modelled from the spec: valid only while halted; resumes
the process for exactly one instruction (the re-halt arrives later as a
dispatched single-step exception event). -/
def SingleStep (p : DebuggeeProcess) : Bool × DebuggeeProcess :=
  if p.state = State.kHalted then
    (true, { p with state := State.kRunning, halted_thread := none })
  else (false, p)

/-- `Break`: modelled from the spec: shall not be called on a halted
process; on a running process it signals `DebugBreakProcess` (the halt
itself arrives later as a dispatched event). -/
def Break (p : DebuggeeProcess) : Bool × DebuggeeProcess :=
  if p.state = State.kRunning then (true, p) else (false, p)

/-- `GetHaltedThread`: the thread that received the current stopping event,
or none. -/
def GetHaltedThread (p : DebuggeeProcess) : Option Nat :=
  p.halted_thread

/-- `GetThread`: pure lookup over the owned thread table. -/
def GetThread (p : DebuggeeProcess) (tid : Nat) : Option Nat :=
  p.threads.find? (fun t => t == tid)

/-- `GetBreakpoint`: pure lookup in the address-keyed breakpoint table. -/
def GetBreakpoint (p : DebuggeeProcess) (addr : Nat) : Option Breakpoint :=
  p.breakpoints.find? (fun b => b.address == addr)

/-- `GetBreakpoints`: returns all breakpoints. -/
def GetBreakpoints (p : DebuggeeProcess) : List Breakpoint :=
  p.breakpoints

/-- Reads `size` consecutive bytes starting at `addr`; `none` as soon as
any byte of the range is unmapped (full transfer or none). -/
def readRange (m : Mem) (addr : Nat) : Nat → Option (List Nat)
  | 0 => some []
  | n + 1 =>
    match m addr, readRange m (addr + 1) n with
    | some b, some bs => some (b :: bs)
    | _, _ => none

/-- Writes the bytes of `src` consecutively from `addr`; fails (`none`)
if any byte of the target range is unmapped. -/
def writeRange (m : Mem) (addr : Nat) : List Nat → Option Mem
  | [] => some m
  | b :: bs =>
    match m addr with
    | some _ => writeRange (fun x => if x = addr then some b else m x) (addr + 1) bs
    | none => none

/-- `ReadMemory`: modelled from the spec (§4.4): fails, transferring
nothing, when the target range is unmapped or protected; otherwise
transfers exactly `size` bytes.  Callable in any run state (the interface
documents that there is no harm in calling it on a running process). -/
def ReadMemory (p : DebuggeeProcess) (addr size : Nat) :
    Bool × Option (List Nat) :=
  match readRange p.memory addr size with
  | some bs => (true, some bs)
  | none => (false, none)

/-- `WriteMemory`: modelled from the spec (§4.1, §4.4): halted-only;
performs either a full transfer of `src` or none at all. -/
def WriteMemory (p : DebuggeeProcess) (addr : Nat) (src : List Nat) :
    Bool × DebuggeeProcess :=
  if p.state = State.kHalted then
    match writeRange p.memory addr src with
    | some m2 => (true, { p with memory := m2 })
    | none => (false, p)
  else (false, p)

/-- `ReadDebugString`: modelled from the spec: halted-only, valid only when
the last debug event is an output-string event, and transfers exactly the
byte span described by that event from debuggee memory. -/
def ReadDebugString (p : DebuggeeProcess) : Bool × Option (List Nat) :=
  if p.state = State.kHalted then
    match p.last_debug_event with
    | some (DebugEvent.outputString _ addr size) =>
      match readRange p.memory addr size with
      | some bs => (true, some bs)
      | none => (false, none)
    | _ => (false, none)
  else (false, none)

/-- `SetBreakpoint`: modelled from the spec (§4.2): fails if the process is
not halted, if a breakpoint already exists at `addr`, or if the memory at
`addr` is not accessible; on success it saves the original byte, writes the
trap instruction and inserts the `Breakpoint` into the table. -/
def SetBreakpoint (p : DebuggeeProcess) (addr : Nat) : Bool × DebuggeeProcess :=
  if p.state = State.kHalted ∧ GetBreakpoint p addr = none ∧
      (p.memory addr).isSome = true then
    (true, { p with
      memory := fun x => if x = addr then some trapInstruction else p.memory x,
      breakpoints :=
        { address := addr, original_code_byte := (p.memory addr).getD 0 } ::
          p.breakpoints })
  else (false, p)

/-- `RemoveBreakpoint`: modelled from the spec (§4.2): fails if the process
is not halted; otherwise restores the saved original byte and removes the
table entry.  Removing a non-existent breakpoint is modelled as the
documented reported-failure choice. -/
def RemoveBreakpoint (p : DebuggeeProcess) (addr : Nat) :
    Bool × DebuggeeProcess :=
  if p.state = State.kHalted then
    match GetBreakpoint p addr with
    | some b =>
      (true, { p with
        memory := fun x =>
          if x = addr then some b.original_code_byte else p.memory x,
        breakpoints := p.breakpoints.filter (fun q => q.address != addr) })
    | none => (false, p)
  else (false, p)

/-- Modelled from the spec: whether a pointer is sandbox-relative, i.e.
meaningful only relative to the loaded payload's base: an address below
`nexe_mem_base` cannot be a flat payload address. -/
def isSandboxRelative (base ptr : Nat) : Bool :=
  decide (ptr < base)

/-- `FromNexeToFlatAddress`: modelled from the spec (§4.4): adds
`nexe_mem_base` to a sandbox-relative pointer, and is the identity on
addresses that are not sandbox-relative, so it is always safe to call. -/
def FromNexeToFlatAddress (p : DebuggeeProcess) (ptr : Nat) : Nat :=
  if isSandboxRelative p.nexe_mem_base ptr then ptr + p.nexe_mem_base else ptr

/-- The thread that received a debug event, if any. -/
def eventThreadId : DebugEvent → Option Nat
  | DebugEvent.exceptionEvent tid _ _ => some tid
  | DebugEvent.threadCreated tid => some tid
  | DebugEvent.threadExited tid => some tid
  | DebugEvent.processExited => none
  | DebugEvent.outputString tid _ _ => some tid
  | DebugEvent.moduleLoaded tid => some tid

/-- `OnDebugEvent`: modelled from the spec (§4.3): updates the thread table
from thread-create/exit notifications, records the event as
`last_debug_event`, marks the receiving thread as the halted thread and
transitions to `kHalted` on a stopping event, or transitions to `kDead` on a
process-exit event.  The state machine of §4.1 has no transition out of
`kDead`, so dispatch on a dead process leaves it untouched. -/
def OnDebugEvent (p : DebuggeeProcess) (e : DebugEvent) : DebuggeeProcess :=
  if p.state = State.kDead then p
  else
    let p1 :=
      match e with
      | DebugEvent.threadCreated tid => { p with threads := tid :: p.threads }
      | DebugEvent.threadExited tid =>
        { p with threads := p.threads.filter (fun t => t != tid) }
      | _ => p
    match e with
    | DebugEvent.processExited =>
      { p1 with last_debug_event := some e, state := State.kDead,
                halted_thread := none }
    | _ =>
      { p1 with last_debug_event := some e, state := State.kHalted,
                halted_thread := eventThreadId e }

/-- One observable operation on the process object: a control command, a
breakpoint or memory mutation, a setter, or the dispatch of a debug event. -/
inductive Step : DebuggeeProcess → DebuggeeProcess → Prop where
  | continueStep (p : DebuggeeProcess) : Step p (Continue p).2
  | continuePassStep (p : DebuggeeProcess) :
      Step p (ContinueAndPassExceptionToDebuggee p).2
  | singleStepStep (p : DebuggeeProcess) : Step p (SingleStep p).2
  | breakStep (p : DebuggeeProcess) : Step p (Break p).2
  | setBreakpointStep (p : DebuggeeProcess) (addr : Nat) :
      Step p (SetBreakpoint p addr).2
  | removeBreakpointStep (p : DebuggeeProcess) (addr : Nat) :
      Step p (RemoveBreakpoint p addr).2
  | writeMemoryStep (p : DebuggeeProcess) (addr : Nat) (src : List Nat) :
      Step p (WriteMemory p addr src).2
  | onDebugEventStep (p : DebuggeeProcess) (e : DebugEvent) :
      Step p (OnDebugEvent p e)
  | enableCompatStep (p : DebuggeeProcess) : Step p (EnableCompatibilityMode p)
  | setNexeMemBaseStep (p : DebuggeeProcess) (a : Nat) :
      Step p (set_nexe_mem_base p a)
  | setNexeEntryPointStep (p : DebuggeeProcess) (a : Nat) :
      Step p (set_nexe_entry_point p a)

/-- Modelled from the spec (§3, §4.1): the process object as created when
the OS reports the initial process-created event: running, no threads
recorded yet, empty breakpoint table, no halted thread. -/
def initialProcess (pid : Nat) (mem : Mem) : DebuggeeProcess :=
  { id := pid, state := State.kRunning, compatibility_mode := false,
    nexe_mem_base := 0, nexe_entry_point := 0, memory := mem,
    breakpoints := [], halted_thread := none, threads := [],
    last_debug_event := none }

/-- Reachability: every state the process object can be in after any
sequence of operations from its creation. -/
def Reachable (pid : Nat) (mem : Mem) (p : DebuggeeProcess) : Prop :=
  Relation.ReflTransGen Step (initialProcess pid mem) p

/-- One breakpoint-table operation, for reasoning about call sequences. -/
inductive BpOp where
  | set (addr : Nat)
  | remove (addr : Nat)

/-- Applies one breakpoint operation (discarding the boolean result). -/
def applyBpOp (p : DebuggeeProcess) : BpOp → DebuggeeProcess
  | BpOp.set a => (SetBreakpoint p a).2
  | BpOp.remove a => (RemoveBreakpoint p a).2

/-- Applies a sequence of Set/RemoveBreakpoint calls in order. -/
def applyBpOps (p : DebuggeeProcess) (ops : List BpOp) : DebuggeeProcess :=
  ops.foldl applyBpOp p

/-- The breakpoint-table invariant of §4.2: at most one entry per address. -/
def bpAddrsNodup (p : DebuggeeProcess) : Prop :=
  (p.breakpoints.map Breakpoint.address).Nodup

/-- The halted-thread discipline of §4.3: the halted thread is recorded only
in the `kHalted` state, and there it is exactly the thread that received the
stopping event that caused the halt. -/
def HaltedThreadInv (p : DebuggeeProcess) : Prop :=
  (p.state ≠ State.kHalted → GetHaltedThread p = none) ∧
  (p.state = State.kHalted → ∃ e, p.last_debug_event = some e ∧
    e ≠ DebugEvent.processExited ∧ GetHaltedThread p = eventThreadId e ∧
    (GetHaltedThread p).isSome = true)

/-- A small concrete debuggee memory: two mapped code bytes at 0x4000 and
0x4001, everything else unmapped. -/
def memA : Mem := fun x =>
  if x = 0x4000 then some 0x90
  else if x = 0x4001 then some 0x91
  else none

/-- A concrete halted process fixture. -/
def procH : DebuggeeProcess :=
  { id := 1, state := State.kHalted, compatibility_mode := false,
    nexe_mem_base := 0x10000, nexe_entry_point := 0x20, memory := memA,
    breakpoints := [], halted_thread := some 7, threads := [7],
    last_debug_event := some (DebugEvent.exceptionEvent 7 0x80000003 0x4000) }

/-- A concrete running process fixture. -/
def procR : DebuggeeProcess :=
  { procH with state := State.kRunning, halted_thread := none,
               last_debug_event := none }

/-- A concrete dead process fixture. -/
def procD : DebuggeeProcess :=
  { procH with state := State.kDead, halted_thread := none,
               last_debug_event := some DebugEvent.processExited }

/-- A concrete fixture with the spec scenario's nexe base address. -/
def procBase : DebuggeeProcess :=
  { procR with nexe_mem_base := 0x10000 }

/-- C1: every halted-only operation (Continue,
ContinueAndPassExceptionToDebuggee, SingleStep, WriteMemory,
ReadDebugString, SetBreakpoint, RemoveBreakpoint) returns false on a
process that is not halted, and Continue then leaves the process
unchanged (in particular while running). -/
theorem C1_halted_only_ops_fail (p : DebuggeeProcess)
    (h : p.state ≠ State.kHalted) :
    (Continue p).1 = false ∧
    (ContinueAndPassExceptionToDebuggee p).1 = false ∧
    (SingleStep p).1 = false ∧
    (∀ a src, (WriteMemory p a src).1 = false) ∧
    (ReadDebugString p).1 = false ∧
    (∀ a, (SetBreakpoint p a).1 = false) ∧
    (∀ a, (RemoveBreakpoint p a).1 = false) ∧
    (Continue p).2 = p := by
  unfold Continue ContinueAndPassExceptionToDebuggee SingleStep WriteMemory
    ReadDebugString SetBreakpoint RemoveBreakpoint
  simp [h]

/-- Witness for C1 at the concrete running fixture. -/
theorem C1_halted_only_ops_fail_witness :
    (Continue procR).1 = false ∧ (Continue procR).2 = procR := by
  have h := C1_halted_only_ops_fail procR (by decide)
  exact ⟨h.1, h.2.2.2.2.2.2.2⟩

/-- C9: IsHalted() returns true exactly when state() equals kHalted. -/
theorem C9_isHalted_iff_state (p : DebuggeeProcess) :
    IsHalted p = true ↔ p.state = State.kHalted := by
  cases hs : p.state <;> simp [IsHalted, hs]

/-- C5: FromNexeToFlatAddress adds nexe_mem_base to a sandbox-relative
pointer, is the identity on non-sandbox-relative addresses, and is
idempotent (applying it to its own output never adds the base twice). -/
theorem C5_fromNexeToFlatAddress_spec (p : DebuggeeProcess) (ptr : Nat) :
    (isSandboxRelative p.nexe_mem_base ptr = true →
      FromNexeToFlatAddress p ptr = ptr + p.nexe_mem_base) ∧
    (isSandboxRelative p.nexe_mem_base ptr = false →
      FromNexeToFlatAddress p ptr = ptr) ∧
    FromNexeToFlatAddress p (FromNexeToFlatAddress p ptr) =
      FromNexeToFlatAddress p ptr := by
  unfold FromNexeToFlatAddress isSandboxRelative
  by_cases hlt : ptr < p.nexe_mem_base
  · have h2 : ¬ (ptr + p.nexe_mem_base < p.nexe_mem_base) := by omega
    simp [hlt, h2]
  · simp [hlt]

/-- Witness for C5: the spec scenario nexe_mem_base = 0x10000,
FromNexeToFlatAddress(0x20) = 0x10020, stable under a second application. -/
theorem C5_fromNexeToFlatAddress_spec_witness :
    FromNexeToFlatAddress procBase 0x20 = 0x10020 ∧
    FromNexeToFlatAddress procBase (FromNexeToFlatAddress procBase 0x20) =
      0x10020 := by
  have h := C5_fromNexeToFlatAddress_spec procBase 0x20
  have h1 := h.1 (by decide)
  have h2 := h.2.2
  have hb : procBase.nexe_mem_base = 0x10000 := rfl
  exact ⟨by omega, by omega⟩

/-- No operation moves a process out of the kDead state. -/
theorem step_state_dead (p q : DebuggeeProcess) (hd : p.state = State.kDead)
    (hs : Step p q) : q.state = State.kDead := by
  cases hs with
  | continueStep => simp [Continue, hd]
  | continuePassStep => simp [ContinueAndPassExceptionToDebuggee, hd]
  | singleStepStep => simp [SingleStep, hd]
  | breakStep => simp [Break, hd]
  | setBreakpointStep a => simp [SetBreakpoint, hd]
  | removeBreakpointStep a => simp [RemoveBreakpoint, hd]
  | writeMemoryStep a src => simp [WriteMemory, hd]
  | onDebugEventStep e => simp [OnDebugEvent, hd]
  | enableCompatStep => simpa [EnableCompatibilityMode] using hd
  | setNexeMemBaseStep a => simpa [set_nexe_mem_base] using hd
  | setNexeEntryPointStep a => simpa [set_nexe_entry_point] using hd

/-- C6: dispatching a process-exit event leaves the process in the kDead
state, kDead is terminal under every modelled operation, and in kDead all
four control commands report failure. -/
theorem C6_process_exit_dead (p : DebuggeeProcess) :
    (OnDebugEvent p DebugEvent.processExited).state = State.kDead ∧
    (p.state = State.kDead → ∀ q, Step p q → q.state = State.kDead) ∧
    (p.state = State.kDead →
      (Continue p).1 = false ∧
      (ContinueAndPassExceptionToDebuggee p).1 = false ∧
      (SingleStep p).1 = false ∧ (Break p).1 = false) := by
  refine ⟨?_, fun hd q hs => step_state_dead p q hd hs, fun hd => ?_⟩
  · unfold OnDebugEvent
    split
    · assumption
    · rfl
  · simp [Continue, ContinueAndPassExceptionToDebuggee, SingleStep, Break, hd]

/-- Witness for C6: a process-exit dispatch on the running fixture ends
dead, and on the dead fixture a Continue step keeps the state dead and all
control commands fail. -/
theorem C6_process_exit_dead_witness :
    (OnDebugEvent procR DebugEvent.processExited).state = State.kDead ∧
    (Continue procD).2.state = State.kDead ∧
    (Continue procD).1 = false ∧ (Break procD).1 = false := by
  have ha := (C6_process_exit_dead procR).1
  have hb := (C6_process_exit_dead procD).2.1 (by decide)
    (Continue procD).2 (Step.continueStep procD)
  have hc := (C6_process_exit_dead procD).2.2 (by decide)
  exact ⟨ha, hb, hc.1, hc.2.2.2⟩

/-- No operation turns the compatibility-mode flag off. -/
theorem step_compat_mono (p q : DebuggeeProcess)
    (hc : p.compatibility_mode = true) (hs : Step p q) :
    q.compatibility_mode = true := by
  cases hs with
  | continueStep => unfold Continue; split <;> exact hc
  | continuePassStep =>
    unfold ContinueAndPassExceptionToDebuggee; split <;> exact hc
  | singleStepStep => unfold SingleStep; split <;> exact hc
  | breakStep => unfold Break; split <;> exact hc
  | setBreakpointStep a => unfold SetBreakpoint; split <;> exact hc
  | removeBreakpointStep a =>
    unfold RemoveBreakpoint
    split
    · split <;> exact hc
    · exact hc
  | writeMemoryStep a src =>
    unfold WriteMemory
    split
    · split <;> exact hc
    · exact hc
  | onDebugEventStep e =>
    unfold OnDebugEvent
    split
    · exact hc
    · cases e <;> exact hc
  | enableCompatStep => rfl
  | setNexeMemBaseStep a => exact hc
  | setNexeEntryPointStep a => exact hc

/-- C10: EnableCompatibilityMode turns the flag on, and the flag is
monotone: once compatibility_mode() is true it stays true across every
sequence of subsequent operations. -/
theorem C10_compat_monotone (p q : DebuggeeProcess) :
    (EnableCompatibilityMode p).compatibility_mode = true ∧
    (p.compatibility_mode = true → Relation.ReflTransGen Step p q →
      q.compatibility_mode = true) := by
  refine ⟨rfl, fun hc hs => ?_⟩
  induction hs with
  | refl => exact hc
  | tail _ hstep ih => exact step_compat_mono _ _ ih hstep

/-- Witness for C10: after enabling the flag on the running fixture, a
subsequent Continue step leaves it on. -/
theorem C10_compat_monotone_witness :
    (EnableCompatibilityMode procR).compatibility_mode = true ∧
    (Continue (EnableCompatibilityMode procR)).2.compatibility_mode = true := by
  have h := C10_compat_monotone (EnableCompatibilityMode procR)
    (Continue (EnableCompatibilityMode procR)).2
  exact ⟨h.1, h.2 rfl (Relation.ReflTransGen.single
    (Step.continueStep (EnableCompatibilityMode procR)))⟩

/-- SetBreakpoint preserves the one-entry-per-address table invariant. -/
theorem setBreakpoint_nodup (p : DebuggeeProcess) (a : Nat)
    (h : bpAddrsNodup p) : bpAddrsNodup (SetBreakpoint p a).2 := by
  unfold SetBreakpoint
  split
  · rename_i hcond
    obtain ⟨-, hbp, -⟩ := hcond
    unfold bpAddrsNodup at *
    simp only [List.map_cons, List.nodup_cons]
    refine ⟨fun hmem => ?_, h⟩
    obtain ⟨b, hb, hba⟩ := List.mem_map.mp hmem
    unfold GetBreakpoint at hbp
    have hnb := List.find?_eq_none.mp hbp b hb
    simp only [beq_iff_eq] at hnb
    exact hnb hba
  · exact h

/-- RemoveBreakpoint preserves the one-entry-per-address table invariant. -/
theorem removeBreakpoint_nodup (p : DebuggeeProcess) (a : Nat)
    (h : bpAddrsNodup p) : bpAddrsNodup (RemoveBreakpoint p a).2 := by
  unfold RemoveBreakpoint
  split
  · split
    · unfold bpAddrsNodup at *
      exact List.Nodup.sublist
        (List.Sublist.map _ (List.filter_sublist p.breakpoints)) h
    · exact h
  · exact h

/-- Any sequence of breakpoint-table operations preserves the invariant. -/
theorem applyBpOps_nodup (ops : List BpOp) (p : DebuggeeProcess)
    (h : bpAddrsNodup p) : bpAddrsNodup (applyBpOps p ops) := by
  induction ops generalizing p with
  | nil => exact h
  | cons op ops ih =>
    cases op with
    | set a => exact ih _ (setBreakpoint_nodup p a h)
    | remove a => exact ih _ (removeBreakpoint_nodup p a h)

/-- C2: across every sequence of Set/RemoveBreakpoint calls the breakpoint
table never holds two entries with the same address, and immediately after
a successful SetBreakpoint(addr), GetBreakpoint(addr) returns an object
whose address equals addr. -/
theorem C2_bp_table_invariant (p : DebuggeeProcess) (ops : List BpOp)
    (h : bpAddrsNodup p) :
    bpAddrsNodup (applyBpOps p ops) ∧
    (∀ a, (SetBreakpoint p a).1 = true →
      ∃ b, GetBreakpoint (SetBreakpoint p a).2 a = some b ∧ b.address = a) := by
  refine ⟨applyBpOps_nodup ops p h, fun a hset => ?_⟩
  by_cases hcond : p.state = State.kHalted ∧ GetBreakpoint p a = none ∧
      (p.memory a).isSome = true
  · refine ⟨⟨a, (p.memory a).getD 0⟩, ?_, rfl⟩
    show GetBreakpoint (SetBreakpoint p a).2 a = _
    unfold SetBreakpoint
    rw [if_pos hcond]
    unfold GetBreakpoint
    exact List.find?_cons_of_pos _ (by simp)
  · unfold SetBreakpoint at hset
    rw [if_neg hcond] at hset
    exact absurd hset (by simp)

/-- Witness for C2: the spec scenario set/set/remove sequence at 0x4000 on
the halted fixture keeps the table duplicate-free, and the first set is
immediately visible through GetBreakpoint. -/
theorem C2_bp_table_invariant_witness :
    bpAddrsNodup (applyBpOps procH
      [BpOp.set 0x4000, BpOp.set 0x4000, BpOp.remove 0x4000]) ∧
    ∃ b, GetBreakpoint (SetBreakpoint procH 0x4000).2 0x4000 = some b ∧
      b.address = 0x4000 := by
  have h := C2_bp_table_invariant procH
    [BpOp.set 0x4000, BpOp.set 0x4000, BpOp.remove 0x4000]
    (by unfold bpAddrsNodup; decide)
  exact ⟨h.1, h.2 0x4000 (by decide)⟩

/-- Field-level description of a successful SetBreakpoint. -/
theorem SetBreakpoint_pos_eq (p : DebuggeeProcess) (a : Nat)
    (h1 : p.state = State.kHalted) (h2 : GetBreakpoint p a = none)
    (h3 : (p.memory a).isSome = true) :
    (SetBreakpoint p a).1 = true ∧
    (SetBreakpoint p a).2.state = p.state ∧
    (SetBreakpoint p a).2.memory =
      (fun x => if x = a then some trapInstruction else p.memory x) ∧
    (SetBreakpoint p a).2.breakpoints =
      { address := a, original_code_byte := (p.memory a).getD 0 } ::
        p.breakpoints := by
  unfold SetBreakpoint
  rw [if_pos ⟨h1, h2, h3⟩]
  exact ⟨rfl, rfl, rfl, rfl⟩

/-- Field-level description of a successful RemoveBreakpoint. -/
theorem RemoveBreakpoint_pos_eq (p : DebuggeeProcess) (a : Nat)
    (b : Breakpoint) (h1 : p.state = State.kHalted)
    (h2 : GetBreakpoint p a = some b) :
    (RemoveBreakpoint p a).1 = true ∧
    (RemoveBreakpoint p a).2.memory =
      (fun x => if x = a then some b.original_code_byte else p.memory x) ∧
    (RemoveBreakpoint p a).2.breakpoints =
      p.breakpoints.filter (fun q => q.address != a) := by
  unfold RemoveBreakpoint
  rw [if_pos h1, h2]
  exact ⟨rfl, rfl, rfl⟩

/-- SetBreakpoint reports failure whenever a breakpoint already exists. -/
theorem setBreakpoint_fails_of_existing (p : DebuggeeProcess) (a : Nat)
    (h : GetBreakpoint p a ≠ none) : (SetBreakpoint p a).1 = false := by
  unfold SetBreakpoint
  rw [if_neg (fun hcond => h hcond.2.1)]

/-- Looking up an address in a table filtered of that address finds
nothing. -/
theorem find_filter_address_ne (l : List Breakpoint) (a : Nat) :
    (l.filter (fun q => q.address != a)).find?
      (fun b => b.address == a) = none := by
  rw [List.find?_eq_none]
  intro b hb
  have hfb := List.of_mem_filter hb
  simp only [bne_iff_ne] at hfb
  simpa using hfb

/-- C4: SetBreakpoint(addr) returns false exactly when the process is not
halted, or the memory at addr is inaccessible, or a breakpoint already
exists there; on success it saves the original byte, writes the trap
instruction, inserts the entry, and a second SetBreakpoint at the same
address fails. -/
theorem C4_setBreakpoint_contract (p : DebuggeeProcess) (a : Nat) :
    ((SetBreakpoint p a).1 = false ↔
      (p.state ≠ State.kHalted ∨ p.memory a = none ∨
        GetBreakpoint p a ≠ none)) ∧
    ((SetBreakpoint p a).1 = true →
      ∃ orig, p.memory a = some orig ∧
        GetBreakpoint (SetBreakpoint p a).2 a =
          some { address := a, original_code_byte := orig } ∧
        (SetBreakpoint p a).2.memory a = some trapInstruction ∧
        (SetBreakpoint (SetBreakpoint p a).2 a).1 = false) := by
  by_cases hcond : p.state = State.kHalted ∧ GetBreakpoint p a = none ∧
      (p.memory a).isSome = true
  · obtain ⟨hst, hbp, hsome⟩ := hcond
    obtain ⟨v, hv⟩ := Option.isSome_iff_exists.mp hsome
    obtain ⟨ht, -, hmem, hbps⟩ := SetBreakpoint_pos_eq p a hst hbp hsome
    have hgb2 : GetBreakpoint (SetBreakpoint p a).2 a =
        some { address := a, original_code_byte := v } := by
      unfold GetBreakpoint
      rw [hbps, List.find?_cons_of_pos _ (by simp)]
      simp [hv]
    refine ⟨by simp [ht, hst, hbp, hv], fun _ => ⟨v, hv, hgb2, ?_, ?_⟩⟩
    · rw [hmem]
      simp
    · exact setBreakpoint_fails_of_existing _ a (by rw [hgb2]; simp)
  · have hfalse : (SetBreakpoint p a).1 = false := by
      unfold SetBreakpoint
      rw [if_neg hcond]
    refine ⟨?_, fun htrue => absurd htrue (by simp [hfalse])⟩
    rw [hfalse]
    simp only [true_iff]
    by_cases h1 : p.state = State.kHalted
    · by_cases h2 : GetBreakpoint p a = none
      · refine Or.inr (Or.inl ?_)
        exact Option.not_isSome_iff_eq_none.mp
          (fun hC => hcond ⟨h1, h2, hC⟩)
      · exact Or.inr (Or.inr h2)
    · exact Or.inl h1

/-- Witness for C4: the spec scenario at 0x4000 on the halted fixture:
first set succeeds, second set at the same address fails. -/
theorem C4_setBreakpoint_contract_witness :
    (SetBreakpoint procH 0x4000).1 = true ∧
    (SetBreakpoint (SetBreakpoint procH 0x4000).2 0x4000).1 = false ∧
    ((SetBreakpoint procR 0x4000).1 = false ↔
      (procR.state ≠ State.kHalted ∨ procR.memory 0x4000 = none ∨
        GetBreakpoint procR 0x4000 ≠ none)) := by
  have h := C4_setBreakpoint_contract procH 0x4000
  obtain ⟨-, -, -, -, hsecond⟩ := h.2 (by decide)
  exact ⟨by decide, hsecond, (C4_setBreakpoint_contract procR 0x4000).1⟩

/-- C3: removing a breakpoint straight after successfully setting it
succeeds, restores the exact original memory bytes everywhere, and removes
the table entry so that GetBreakpoint afterwards returns none. -/
theorem C3_removeBreakpoint_roundtrip (p : DebuggeeProcess) (a : Nat)
    (h : (SetBreakpoint p a).1 = true) :
    (RemoveBreakpoint (SetBreakpoint p a).2 a).1 = true ∧
    (∀ x, (RemoveBreakpoint (SetBreakpoint p a).2 a).2.memory x =
      p.memory x) ∧
    GetBreakpoint (RemoveBreakpoint (SetBreakpoint p a).2 a).2 a = none := by
  by_cases hcond : p.state = State.kHalted ∧ GetBreakpoint p a = none ∧
      (p.memory a).isSome = true
  · obtain ⟨hst, hbp, hsome⟩ := hcond
    obtain ⟨v, hv⟩ := Option.isSome_iff_exists.mp hsome
    obtain ⟨-, hqst, hqmem, hqbps⟩ := SetBreakpoint_pos_eq p a hst hbp hsome
    have hgb2 : GetBreakpoint (SetBreakpoint p a).2 a =
        some { address := a, original_code_byte := (p.memory a).getD 0 } := by
      unfold GetBreakpoint
      rw [hqbps]
      exact List.find?_cons_of_pos _ (by simp)
    obtain ⟨hr1, hrmem, hrbps⟩ := RemoveBreakpoint_pos_eq (SetBreakpoint p a).2
      a _ (by rw [hqst]; exact hst) hgb2
    refine ⟨hr1, fun x => ?_, ?_⟩
    · rw [hrmem]
      by_cases hx : x = a
      · subst hx
        simp [hv]
      · simp only [if_neg hx]
        rw [hqmem]
        simp [hx]
    · unfold GetBreakpoint
      rw [hrbps]
      exact find_filter_address_ne _ a
  · exfalso
    unfold SetBreakpoint at h
    rw [if_neg hcond] at h
    exact absurd h (by simp)

/-- Witness for C3: set then remove at 0x4000 on the halted fixture
restores the original byte 0x90 and empties the table entry. -/
theorem C3_removeBreakpoint_roundtrip_witness :
    (RemoveBreakpoint (SetBreakpoint procH 0x4000).2 0x4000).1 = true ∧
    (RemoveBreakpoint (SetBreakpoint procH 0x4000).2 0x4000).2.memory
      0x4000 = some 0x90 ∧
    GetBreakpoint (RemoveBreakpoint (SetBreakpoint procH 0x4000).2
      0x4000).2 0x4000 = none := by
  have h := C3_removeBreakpoint_roundtrip procH 0x4000 (by decide)
  refine ⟨h.1, ?_, h.2.2⟩
  rw [h.2.1 0x4000]
  decide

/-- SetBreakpoint never touches the run state, the halted thread or the
last debug event. -/
theorem SetBreakpoint_control_fields (p : DebuggeeProcess) (a : Nat) :
    (SetBreakpoint p a).2.state = p.state ∧
    (SetBreakpoint p a).2.halted_thread = p.halted_thread ∧
    (SetBreakpoint p a).2.last_debug_event = p.last_debug_event := by
  unfold SetBreakpoint
  split <;> exact ⟨rfl, rfl, rfl⟩

/-- RemoveBreakpoint never touches the run state, the halted thread or the
last debug event. -/
theorem RemoveBreakpoint_control_fields (p : DebuggeeProcess) (a : Nat) :
    (RemoveBreakpoint p a).2.state = p.state ∧
    (RemoveBreakpoint p a).2.halted_thread = p.halted_thread ∧
    (RemoveBreakpoint p a).2.last_debug_event = p.last_debug_event := by
  unfold RemoveBreakpoint
  split
  · split <;> exact ⟨rfl, rfl, rfl⟩
  · exact ⟨rfl, rfl, rfl⟩

/-- WriteMemory never touches the run state, the halted thread or the last
debug event. -/
theorem WriteMemory_control_fields (p : DebuggeeProcess) (a : Nat)
    (src : List Nat) :
    (WriteMemory p a src).2.state = p.state ∧
    (WriteMemory p a src).2.halted_thread = p.halted_thread ∧
    (WriteMemory p a src).2.last_debug_event = p.last_debug_event := by
  unfold WriteMemory
  split
  · split <;> exact ⟨rfl, rfl, rfl⟩
  · exact ⟨rfl, rfl, rfl⟩

/-- The halted-thread invariant only depends on the run state, the halted
thread and the last debug event. -/
theorem haltedThreadInv_congr (p q : DebuggeeProcess)
    (h1 : q.state = p.state) (h2 : q.halted_thread = p.halted_thread)
    (h3 : q.last_debug_event = p.last_debug_event)
    (hi : HaltedThreadInv p) : HaltedThreadInv q := by
  unfold HaltedThreadInv GetHaltedThread at *
  rw [h1, h2, h3]
  exact hi

/-- Every operation preserves the halted-thread discipline. -/
theorem step_haltedThreadInv (p q : DebuggeeProcess)
    (hi : HaltedThreadInv p) (hs : Step p q) : HaltedThreadInv q := by
  cases hs with
  | continueStep =>
    unfold Continue
    split
    · exact ⟨fun _ => rfl, fun hh => absurd hh (by simp)⟩
    · exact hi
  | continuePassStep =>
    unfold ContinueAndPassExceptionToDebuggee
    split
    · exact ⟨fun _ => rfl, fun hh => absurd hh (by simp)⟩
    · exact hi
  | singleStepStep =>
    unfold SingleStep
    split
    · exact ⟨fun _ => rfl, fun hh => absurd hh (by simp)⟩
    · exact hi
  | breakStep =>
    unfold Break
    split <;> exact hi
  | setBreakpointStep a =>
    obtain ⟨h1, h2, h3⟩ := SetBreakpoint_control_fields p a
    exact haltedThreadInv_congr p _ h1 h2 h3 hi
  | removeBreakpointStep a =>
    obtain ⟨h1, h2, h3⟩ := RemoveBreakpoint_control_fields p a
    exact haltedThreadInv_congr p _ h1 h2 h3 hi
  | writeMemoryStep a src =>
    obtain ⟨h1, h2, h3⟩ := WriteMemory_control_fields p a src
    exact haltedThreadInv_congr p _ h1 h2 h3 hi
  | onDebugEventStep e =>
    unfold OnDebugEvent
    split
    · exact hi
    · cases e with
      | exceptionEvent tid c fa =>
        exact ⟨fun hh => absurd rfl hh, fun _ =>
          ⟨DebugEvent.exceptionEvent tid c fa, rfl, by simp, rfl, rfl⟩⟩
      | threadCreated tid =>
        exact ⟨fun hh => absurd rfl hh, fun _ =>
          ⟨DebugEvent.threadCreated tid, rfl, by simp, rfl, rfl⟩⟩
      | threadExited tid =>
        exact ⟨fun hh => absurd rfl hh, fun _ =>
          ⟨DebugEvent.threadExited tid, rfl, by simp, rfl, rfl⟩⟩
      | processExited =>
        exact ⟨fun _ => rfl, fun hh => absurd hh (by simp)⟩
      | outputString tid a2 sz =>
        exact ⟨fun hh => absurd rfl hh, fun _ =>
          ⟨DebugEvent.outputString tid a2 sz, rfl, by simp, rfl, rfl⟩⟩
      | moduleLoaded tid =>
        exact ⟨fun hh => absurd rfl hh, fun _ =>
          ⟨DebugEvent.moduleLoaded tid, rfl, by simp, rfl, rfl⟩⟩
  | enableCompatStep => exact haltedThreadInv_congr p _ rfl rfl rfl hi
  | setNexeMemBaseStep a => exact haltedThreadInv_congr p _ rfl rfl rfl hi
  | setNexeEntryPointStep a => exact haltedThreadInv_congr p _ rfl rfl rfl hi

/-- C7: in every reachable state, GetHaltedThread() is non-null only while
halted — and then it is exactly the thread that received the stopping event
that caused the halt — and it is null whenever the process is not halted. -/
theorem C7_getHaltedThread_discipline (pid : Nat) (mem : Mem)
    (p : DebuggeeProcess) (h : Reachable pid mem p) :
    (p.state ≠ State.kHalted → GetHaltedThread p = none) ∧
    (p.state = State.kHalted → ∃ e, p.last_debug_event = some e ∧
      e ≠ DebugEvent.processExited ∧ GetHaltedThread p = eventThreadId e ∧
      (GetHaltedThread p).isSome = true) := by
  have hinv : HaltedThreadInv p := by
    unfold Reachable at h
    induction h with
    | refl =>
      exact ⟨fun _ => rfl, fun hh => absurd hh (by simp [initialProcess])⟩
    | tail hst hstep ih => exact step_haltedThreadInv _ _ ih hstep
  exact hinv

/-- Witness for C7: dispatch an exception to halt the fresh process, then
Continue; the resumed process is reachable and reports no halted thread. -/
theorem C7_getHaltedThread_discipline_witness :
    GetHaltedThread (Continue (OnDebugEvent (initialProcess 1 memA)
      (DebugEvent.exceptionEvent 7 5 0x4000))).2 = none := by
  have hr : Reachable 1 memA (Continue (OnDebugEvent (initialProcess 1 memA)
      (DebugEvent.exceptionEvent 7 5 0x4000))).2 :=
    Relation.ReflTransGen.tail
      (Relation.ReflTransGen.single
        (Step.onDebugEventStep (initialProcess 1 memA)
          (DebugEvent.exceptionEvent 7 5 0x4000)))
      (Step.continueStep _)
  exact (C7_getHaltedThread_discipline 1 memA _ hr).1 (by decide)

/-- A successful range read delivers exactly `size` bytes, each equal to
the byte in debuggee memory. -/
theorem readRange_spec (m : Mem) (size : Nat) :
    ∀ (addr : Nat) (bs : List Nat), readRange m addr size = some bs →
      bs.length = size ∧ ∀ i, i < size → m (addr + i) = some (bs.getD i 0) := by
  induction size with
  | zero =>
    intro addr bs h
    unfold readRange at h
    cases h
    exact ⟨rfl, fun i hi => absurd hi (Nat.not_lt_zero i)⟩
  | succ n ih =>
    intro addr bs h
    unfold readRange at h
    cases hm : m addr with
    | none => rw [hm] at h; cases h
    | some b =>
      rw [hm] at h
      cases hr : readRange m (addr + 1) n with
      | none => rw [hr] at h; cases h
      | some bs2 =>
        rw [hr] at h
        cases h
        obtain ⟨hlen, hval⟩ := ih (addr + 1) bs2 hr
        refine ⟨by simp [hlen], fun i hi => ?_⟩
        cases i with
        | zero => simpa using hm
        | succ j =>
          have hj := hval j (Nat.lt_of_succ_lt_succ hi)
          rw [show addr + (j + 1) = (addr + 1) + j from by omega]
          simpa using hj

/-- A range read fails as soon as any byte of the range is unmapped. -/
theorem readRange_none_of_unmapped (m : Mem) (size addr i : Nat)
    (hi : i < size) (hnone : m (addr + i) = none) :
    readRange m addr size = none := by
  cases hr : readRange m addr size with
  | none => rfl
  | some bs =>
    obtain ⟨-, hval⟩ := readRange_spec m size addr bs hr
    rw [hval i hi] at hnone
    cases hnone

/-- A successful range write stores every source byte and leaves addresses
below the range untouched. -/
theorem writeRange_spec (src : List Nat) :
    ∀ (m : Mem) (addr : Nat) (m2 : Mem), writeRange m addr src = some m2 →
      (∀ i, i < src.length → m2 (addr + i) = some (src.getD i 0)) ∧
      (∀ x, x < addr → m2 x = m x) := by
  induction src with
  | nil =>
    intro m addr m2 h
    unfold writeRange at h
    cases h
    exact ⟨fun i hi => absurd hi (by simp), fun x _ => rfl⟩
  | cons b bs ih =>
    intro m addr m2 h
    unfold writeRange at h
    cases hm : m addr with
    | none => rw [hm] at h; cases h
    | some w =>
      rw [hm] at h
      obtain ⟨hval, hlow⟩ := ih _ (addr + 1) m2 h
      constructor
      · intro i hi
        cases i with
        | zero =>
          have h0 := hlow addr (Nat.lt_succ_self addr)
          simp only [Nat.add_zero, List.getD_cons_zero]
          rw [h0]
          simp
        | succ j =>
          have hj := hval j (by simp at hi; omega)
          rw [show addr + (j + 1) = (addr + 1) + j from by omega]
          simpa using hj
      · intro x hx
        have hx1 := hlow x (by omega)
        rw [hx1]
        simp [show x ≠ addr from by omega]

/-- A successful range write requires every byte of the target range to be
mapped beforehand. -/
theorem writeRange_mapped (src : List Nat) :
    ∀ (m : Mem) (addr : Nat) (m2 : Mem), writeRange m addr src = some m2 →
      ∀ i, i < src.length → (m (addr + i)).isSome = true := by
  induction src with
  | nil => intro m addr m2 _ i hi; exact absurd hi (by simp)
  | cons b bs ih =>
    intro m addr m2 h i hi
    unfold writeRange at h
    cases hm : m addr with
    | none => rw [hm] at h; cases h
    | some w =>
      rw [hm] at h
      cases i with
      | zero => simp [hm]
      | succ j =>
        have hj := ih _ (addr + 1) m2 h j (by simp at hi; omega)
        rw [show addr + (j + 1) = (addr + 1) + j from by omega]
        have hne : (addr + 1) + j ≠ addr := by omega
        simpa [hne] using hj

/-- C8: ReadMemory and WriteMemory fail, transferring nothing, whenever any
byte of the target range is unmapped or protected, and a success is always
a full transfer: a read returns exactly `size` bytes matching debuggee
memory, a failed write leaves the process unchanged, and a successful
write stores every source byte. -/
theorem C8_memory_full_or_none (p : DebuggeeProcess) (addr size : Nat)
    (src : List Nat) :
    ((∃ i, i < size ∧ p.memory (addr + i) = none) →
      ReadMemory p addr size = (false, none)) ∧
    (∀ bs, (ReadMemory p addr size).2 = some bs →
      (ReadMemory p addr size).1 = true ∧ bs.length = size ∧
      ∀ i, i < size → p.memory (addr + i) = some (bs.getD i 0)) ∧
    ((WriteMemory p addr src).1 = false → (WriteMemory p addr src).2 = p) ∧
    ((∃ i, i < src.length ∧ p.memory (addr + i) = none) →
      (WriteMemory p addr src).1 = false) ∧
    ((WriteMemory p addr src).1 = true →
      ∀ i, i < src.length →
        (WriteMemory p addr src).2.memory (addr + i) =
          some (src.getD i 0)) := by
  refine ⟨?_, ?_, ?_, ?_, ?_⟩
  · rintro ⟨i, hi, hnone⟩
    unfold ReadMemory
    rw [readRange_none_of_unmapped p.memory size addr i hi hnone]
  · intro bs h2
    unfold ReadMemory at h2 ⊢
    cases hr : readRange p.memory addr size with
    | none => rw [hr] at h2; cases h2
    | some bs2 =>
      rw [hr] at h2
      cases h2
      obtain ⟨hlen, hval⟩ := readRange_spec p.memory size addr _ hr
      exact ⟨rfl, hlen, hval⟩
  · by_cases hst : p.state = State.kHalted
    · cases hw : writeRange p.memory addr src with
      | some m2 =>
        intro hfail
        exfalso
        unfold WriteMemory at hfail
        rw [if_pos hst, hw] at hfail
        cases hfail
      | none =>
        intro _
        unfold WriteMemory
        rw [if_pos hst, hw]
    · intro _
      unfold WriteMemory
      rw [if_neg hst]
  · rintro ⟨i, hi, hnone⟩
    by_cases hst : p.state = State.kHalted
    · cases hw : writeRange p.memory addr src with
      | some m2 =>
        exfalso
        have hmap := writeRange_mapped src p.memory addr m2 hw i hi
        rw [hnone] at hmap
        cases hmap
      | none =>
        unfold WriteMemory
        rw [if_pos hst, hw]
    · unfold WriteMemory
      rw [if_neg hst]
  · intro hsucc i hi
    by_cases hst : p.state = State.kHalted
    · cases hw : writeRange p.memory addr src with
      | none =>
        exfalso
        unfold WriteMemory at hsucc
        rw [if_pos hst, hw] at hsucc
        cases hsucc
      | some m2 =>
        have hmem : (WriteMemory p addr src).2.memory = m2 := by
          unfold WriteMemory
          rw [if_pos hst, hw]
        rw [hmem]
        exact (writeRange_spec src p.memory addr m2 hw).1 i hi
    · exfalso
      unfold WriteMemory at hsucc
      rw [if_neg hst] at hsucc
      cases hsucc

/-- Witness for C8: on the halted fixture a three-byte read crossing the
unmapped byte 0x4002 fails with no data, and a successful one-byte write at
0x4000 actually stores the byte. -/
theorem C8_memory_full_or_none_witness :
    ReadMemory procH 0x4000 3 = (false, none) ∧
    (WriteMemory procH 0x4000 [0x41]).2.memory 0x4000 = some 0x41 := by
  have h := C8_memory_full_or_none procH 0x4000 3 [0x41]
  refine ⟨h.1 ⟨2, by omega, by decide⟩, ?_⟩
  have h5 := h.2.2.2.2 (by decide) 0 (by decide)
  simpa using h5

end Debug
